import Mathlib

/-!
Shallow embedding of `src/01.TicTacToe/TicTacToe.cpp`: the `Board` class
(an n x n grid of symbol pointers with bounds-guarded accessors), the
`StandardRule` win / draw / move-validation checks, and the
`TicTacToe::play` loop modelled as a step function on a game state.
-/

namespace TTT

/-- Player symbols: `main` registers exactly two players, X first, then O. -/
inductive PlayerSym where
  | X
  | O
deriving DecidableEq, Repr

/-- A grid cell holds either the shared empty symbol (`none`) or one of the
player symbols (`some s`), mirroring the `Symbol*` entries of `grid`. -/
abbrev Cell := Option PlayerSym

/-- Embedding of the `Board` class: the `size` field and the 2D `grid`. -/
structure Board where
  size : Nat
  grid : List (List Cell)
deriving DecidableEq, Repr

/-- The `Board(int size)` constructor: every cell starts as the empty symbol. -/
def Board.create (n : Nat) : Board :=
  ⟨n, List.replicate n (List.replicate n (none : Cell))⟩

/-- Raw `grid[row][col]` access with Nat indices (callers guard the bounds). -/
def Board.cellAt (b : Board) (r c : Nat) : Cell :=
  (b.grid.getD r []).getD c none

/-- Embedding of `Board::isCellEmpty`: false outside `[0,n) x [0,n)`,
otherwise whether the cell holds the empty symbol. -/
def Board.isCellEmpty (b : Board) (r c : Int) : Bool :=
  if r < 0 || (b.size : Int) ≤ r || c < 0 || (b.size : Int) ≤ c then false
  else decide (b.cellAt r.toNat c.toNat = none)

/-- Embedding of `Board::getCell`: the outer `none` models the `nullptr`
sentinel returned outside bounds; `some` wraps the stored cell. -/
def Board.getCell (b : Board) (r c : Int) : Option Cell :=
  if r < 0 || (b.size : Int) ≤ r || c < 0 || (b.size : Int) ≤ c then none
  else some (b.cellAt r.toNat c.toNat)

/-- Embedding of `Board::markCell`: reject when the cell is not empty,
otherwise write the symbol; returns the C++ bool and the updated board. -/
def Board.markCell (b : Board) (r c : Int) (s : PlayerSym) : Bool × Board :=
  if b.isCellEmpty r c then
    (true, ⟨b.size, b.grid.set r.toNat ((b.grid.getD r.toNat []).set c.toNat (some s))⟩)
  else (false, b)

/-- Embedding of `StandardRule::checkWin`: scan every row and column, then
the main diagonal and the anti-diagonal, for full occupancy by `s`. -/
def checkWin (b : Board) (s : PlayerSym) : Bool :=
  ((List.range b.size).any fun i =>
      ((List.range b.size).all fun j => decide (b.getCell i j = some (some s))) ||
      ((List.range b.size).all fun j => decide (b.getCell j i = some (some s)))) ||
  (((List.range b.size).all fun i => decide (b.getCell i i = some (some s))) ||
   ((List.range b.size).all fun i =>
      decide (b.getCell i ((b.size : Int) - 1 - i) = some (some s))))

/-- Embedding of `StandardRule::checkDraw`: true iff no cell is empty. -/
def checkDraw (b : Board) : Bool :=
  (List.range b.size).all fun r => (List.range b.size).all fun c =>
    !(b.isCellEmpty r c)

/-- Embedding of `StandardRule::isValidMove`: delegates to `Board::isCellEmpty`. -/
def isValidMove (b : Board) (r c : Int) : Bool :=
  b.isCellEmpty r c

/-- Game outcome corresponding to how `TicTacToe::play` can terminate. -/
inductive Outcome where
  | ongoing
  | win (p : PlayerSym)
  | draw
deriving DecidableEq, Repr

/-- State of the `TicTacToe::play` loop: the board, `currentPlayerIndex`,
and whether (and how) the game has ended. -/
structure GameState where
  board : Board
  idx : Nat
  outcome : Outcome
deriving DecidableEq, Repr

/-- One iteration of the `TicTacToe::play` loop on input `(row, col)`: an
invalid move leaves everything unchanged; an accepted move marks the cell,
then checks win, then draw, and otherwise advances `currentPlayerIndex`.
After the game is over the loop exits, so further inputs change nothing. -/
def step (players : List PlayerSym) (st : GameState) (mv : Int × Int) : GameState :=
  match st.outcome with
  | Outcome.ongoing =>
      let cur := players.getD st.idx PlayerSym.X
      if isValidMove st.board mv.1 mv.2 then
        let b := (st.board.markCell mv.1 mv.2 cur).2
        if checkWin b cur then ⟨b, st.idx, Outcome.win cur⟩
        else if checkDraw b then ⟨b, st.idx, Outcome.draw⟩
        else ⟨b, (st.idx + 1) % players.length, Outcome.ongoing⟩
      else st
  | _ => st

/-- The two players registered in `main`: X first, then O. -/
def mainPlayers : List PlayerSym :=
  [PlayerSym.X, PlayerSym.O]

/-- Initial state of a game on a fresh `n x n` board, X to move. -/
def initState (n : Nat) : GameState :=
  ⟨Board.create n, 0, Outcome.ongoing⟩

/-- Running the play loop from a state over a list of inputs. -/
def runFrom (players : List PlayerSym) (st : GameState) (moves : List (Int × Int)) : GameState :=
  moves.foldl (step players) st

/-- Running a fresh game the way `main` sets it up. -/
def run (n : Nat) (moves : List (Int × Int)) : GameState :=
  runFrom mainPlayers (initState n) moves

/-- Movers of the accepted moves of a game, in order: the trace the spec
talks about when it numbers accepted moves 1, 2, 3, .... -/
def playTrace (players : List PlayerSym) (st : GameState) :
    List (Int × Int) → List PlayerSym
  | [] => []
  | mv :: rest =>
      match st.outcome with
      | Outcome.ongoing =>
          if isValidMove st.board mv.1 mv.2 then
            players.getD st.idx PlayerSym.X :: playTrace players (step players st mv) rest
          else
            playTrace players (step players st mv) rest
      | _ => playTrace players (step players st mv) rest

/-- Modelled from the spec: the repository's optimized variant (not present
under `src/`) keeps a `movesCount` counter incremented once per accepted
move; here it is the number of accepted moves of the run. -/
def movesCount (n : Nat) (moves : List (Int × Int)) : Nat :=
  (playTrace mainPlayers (initState n) moves).length

/-- Specification predicate, following the spec text: some full row, some
full column, the main diagonal, or the anti-diagonal is occupied entirely
by the symbol `s`. -/
def winSpec (b : Board) (s : PlayerSym) : Prop :=
  (∃ i < b.size, ∀ j < b.size, b.cellAt i j = some s) ∨
  (∃ i < b.size, ∀ j < b.size, b.cellAt j i = some s) ∨
  (∀ i < b.size, b.cellAt i i = some s) ∨
  (∀ i < b.size, b.cellAt i (b.size - 1 - i) = some s)

/-- Specification predicate: every cell of the grid is non-Empty. -/
def fullBoard (b : Board) : Prop :=
  ∀ r < b.size, ∀ c < b.size, b.cellAt r c ≠ none

/-- The number of non-Empty cells of the grid. -/
def countNonEmpty (b : Board) : Nat :=
  ∑ r ∈ Finset.range b.size, ∑ c ∈ Finset.range b.size,
    if b.cellAt r c = none then 0 else 1

/-- Well-formedness: the grid really is `size` rows of `size` cells. -/
def wellFormed (b : Board) : Prop :=
  b.grid.length = b.size ∧ ∀ i < b.size, (b.grid.getD i []).length = b.size

/-- Example 3 x 3 board whose top row is fully occupied by X. -/
def exampleTopRow : Board :=
  ⟨3, [[some PlayerSym.X, some PlayerSym.X, some PlayerSym.X],
       [none, none, none],
       [none, none, none]]⟩

/-- Example 3 x 3 board with eight cells occupied; X completing `(0,2)` both
finishes the top row and fills the last empty cell. -/
def exampleAlmostFull : Board :=
  ⟨3, [[some PlayerSym.X, some PlayerSym.X, none],
       [some PlayerSym.O, some PlayerSym.O, some PlayerSym.X],
       [some PlayerSym.X, some PlayerSym.O, some PlayerSym.O]]⟩

/-- Example full 3 x 3 board in which X owns the top row. -/
def exampleFullWin : Board :=
  ⟨3, [[some PlayerSym.X, some PlayerSym.X, some PlayerSym.X],
       [some PlayerSym.O, some PlayerSym.O, some PlayerSym.X],
       [some PlayerSym.X, some PlayerSym.O, some PlayerSym.O]]⟩

/-! Basic list helpers about `getD` after `set`. -/

theorem getD_set_of_ne {α : Type} (l : List α) (m i : Nat) (a d : α) (h : m ≠ i) :
    (l.set m a).getD i d = l.getD i d := by
  rcases Nat.lt_or_ge i l.length with hi | hi
  · rw [List.getD_eq_getElem _ _ (by simpa [List.length_set] using hi),
      List.getD_eq_getElem _ _ hi, List.getElem_set_ne h]
  · rw [List.getD_eq_default _ _ (by simpa [List.length_set] using hi),
      List.getD_eq_default _ _ hi]

theorem getD_set_self_of_lt {α : Type} (l : List α) (m : Nat) (a d : α) (h : m < l.length) :
    (l.set m a).getD m d = a := by
  rw [List.getD_eq_getElem _ _ (by simpa [List.length_set] using h), List.getElem_set_self]

/-! Accessor lemmas relating the embedded C++ accessors to `cellAt`. -/

theorem cellAt_create (n r c : Nat) : (Board.create n).cellAt r c = none := by
  show ((List.replicate n (List.replicate n (none : Cell))).getD r []).getD c none = none
  rcases Nat.lt_or_ge r n with h | h
  · have h1 : (List.replicate n (List.replicate n (none : Cell))).getD r [] =
        List.replicate n none := by
      rw [List.getD_eq_getElem _ _ (by simpa using h)]
      exact List.getElem_replicate _ _
    rw [h1]
    rcases Nat.lt_or_ge c n with h2 | h2
    · rw [List.getD_eq_getElem _ _ (by simpa using h2)]
      exact List.getElem_replicate _ _
    · exact List.getD_eq_default _ _ (by simpa using h2)
  · have h1 : (List.replicate n (List.replicate n (none : Cell))).getD r [] = [] :=
      List.getD_eq_default _ _ (by simpa using h)
    rw [h1]
    simp

theorem isCellEmpty_eq_true_iff (b : Board) (r c : Int) :
    b.isCellEmpty r c = true ↔
      0 ≤ r ∧ r < (b.size : Int) ∧ 0 ≤ c ∧ c < (b.size : Int) ∧
        b.cellAt r.toNat c.toNat = none := by
  unfold Board.isCellEmpty
  split
  next h =>
    simp only [Bool.or_eq_true, decide_eq_true_eq] at h
    simp only [Bool.false_eq_true, false_iff]
    rintro ⟨h1, h2, h3, h4, -⟩
    omega
  next h =>
    simp only [Bool.or_eq_true, decide_eq_true_eq, not_or] at h
    simp only [decide_eq_true_eq]
    constructor
    · intro hc
      exact ⟨by omega, by omega, by omega, by omega, hc⟩
    · intro hc
      exact hc.2.2.2.2

theorem getCell_of_lt (b : Board) (i j : Nat) (hi : i < b.size) (hj : j < b.size) :
    b.getCell (i : Int) (j : Int) = some (b.cellAt i j) := by
  unfold Board.getCell
  rw [if_neg]
  · simp
  · simp only [Bool.or_eq_true, decide_eq_true_eq, not_or]
    omega

theorem getCell_anti (b : Board) (i : Nat) (hi : i < b.size) :
    b.getCell (i : Int) ((b.size : Int) - 1 - (i : Int)) =
      some (b.cellAt i (b.size - 1 - i)) := by
  have h1 : ((b.size : Int) - 1 - (i : Int)) = ((b.size - 1 - i : Nat) : Int) := by omega
  rw [h1, getCell_of_lt b i _ hi (by omega)]

/-! Bridges between the C++ boolean checks and the spec predicates. -/

theorem checkWin_iff (b : Board) (s : PlayerSym) : checkWin b s = true ↔ winSpec b s := by
  have hcell : ∀ i j : Nat, i < b.size → j < b.size →
      (b.getCell (i : Int) (j : Int) = some (some s) ↔ b.cellAt i j = some s) := by
    intro i j hi hj
    rw [getCell_of_lt b i j hi hj]
    exact Option.some_inj
  have hcell2 : ∀ i : Nat, i < b.size →
      (b.getCell (i : Int) ((b.size : Int) - 1 - (i : Int)) = some (some s) ↔
        b.cellAt i (b.size - 1 - i) = some s) := by
    intro i hi
    rw [getCell_anti b i hi]
    exact Option.some_inj
  unfold checkWin winSpec
  simp only [List.any_eq_true, List.mem_range, List.all_eq_true, Bool.or_eq_true,
    decide_eq_true_eq]
  constructor
  · rintro (⟨i, hi, hrow | hcol⟩ | hdiag | hanti)
    · exact Or.inl ⟨i, hi, fun j hj => (hcell i j hi hj).1 (hrow j hj)⟩
    · exact Or.inr (Or.inl ⟨i, hi, fun j hj => (hcell j i hj hi).1 (hcol j hj)⟩)
    · exact Or.inr (Or.inr (Or.inl fun i hi => (hcell i i hi hi).1 (hdiag i hi)))
    · exact Or.inr (Or.inr (Or.inr fun i hi => (hcell2 i hi).1 (hanti i hi)))
  · rintro (⟨i, hi, hrow⟩ | ⟨i, hi, hcol⟩ | hdiag | hanti)
    · exact Or.inl ⟨i, hi, Or.inl fun j hj => (hcell i j hi hj).2 (hrow j hj)⟩
    · exact Or.inl ⟨i, hi, Or.inr fun j hj => (hcell j i hj hi).2 (hcol j hj)⟩
    · exact Or.inr (Or.inl fun i hi => (hcell i i hi hi).2 (hdiag i hi))
    · exact Or.inr (Or.inr fun i hi => (hcell2 i hi).2 (hanti i hi))

theorem checkDraw_iff (b : Board) : checkDraw b = true ↔ fullBoard b := by
  unfold checkDraw fullBoard
  simp only [List.all_eq_true, List.mem_range, Bool.not_eq_true']
  constructor
  · intro h r hr c hc hnone
    have h2 := h r hr c hc
    have h3 : b.isCellEmpty (r : Int) (c : Int) = true :=
      (isCellEmpty_eq_true_iff b r c).2
        ⟨by omega, by omega, by omega, by omega, by simpa using hnone⟩
    rw [h3] at h2
    exact Bool.noConfusion h2
  · intro h r hr c hc
    cases hEmpty : b.isCellEmpty (r : Int) (c : Int)
    · rfl
    · have h2 := (isCellEmpty_eq_true_iff b r c).1 hEmpty
      have h3 := h2.2.2.2.2
      simp only [Int.toNat_natCast] at h3
      exact absurd h3 (h r hr c hc)

/-! Lemmas about `Board::markCell`. -/

theorem markCell_size (b : Board) (r c : Int) (s : PlayerSym) :
    (b.markCell r c s).2.size = b.size := by
  unfold Board.markCell
  split <;> rfl

theorem markCell_rejected (b : Board) (r c : Int) (s : PlayerSym)
    (h : b.isCellEmpty r c = false) : b.markCell r c s = (false, b) := by
  unfold Board.markCell
  rw [if_neg]
  simp [h]

theorem markCell_cell_cases (b : Board) (r c : Int) (s : PlayerSym) (i j : Nat) :
    (b.markCell r c s).2.cellAt i j = b.cellAt i j ∨
      (b.markCell r c s).2.cellAt i j = some s := by
  unfold Board.markCell
  split
  · simp only [Board.cellAt]
    by_cases hi : r.toNat = i
    · subst hi
      by_cases hlen : r.toNat < b.grid.length
      · rw [getD_set_self_of_lt _ _ _ _ hlen]
        by_cases hj : c.toNat = j
        · subst hj
          by_cases hjlen : c.toNat < (b.grid.getD r.toNat []).length
          · rw [getD_set_self_of_lt _ _ _ _ hjlen]
            exact Or.inr rfl
          · rw [List.set_eq_of_length_le (by omega)]
            exact Or.inl rfl
        · rw [getD_set_of_ne _ _ _ _ _ hj]
          exact Or.inl rfl
      · rw [List.set_eq_of_length_le (by omega)]
        exact Or.inl rfl
    · rw [getD_set_of_ne _ _ _ _ _ hi]
      exact Or.inl rfl
  · exact Or.inl rfl

theorem markCell_cellAt_marked (b : Board) (r c : Int) (s : PlayerSym)
    (hwf : wellFormed b) (hacc : b.isCellEmpty r c = true) :
    (b.markCell r c s).2.cellAt r.toNat c.toNat = some s := by
  obtain ⟨h0, h1, h2, h3, h4⟩ := (isCellEmpty_eq_true_iff b r c).1 hacc
  unfold Board.markCell
  rw [if_pos hacc]
  simp only [Board.cellAt]
  have hrl : r.toNat < b.grid.length := by
    rw [hwf.1]
    omega
  rw [getD_set_self_of_lt _ _ _ _ hrl, getD_set_self_of_lt]
  rw [hwf.2 r.toNat (by omega)]
  omega

theorem markCell_cellAt_other (b : Board) (r c : Int) (s : PlayerSym) (i j : Nat)
    (hne : ¬(i = r.toNat ∧ j = c.toNat)) :
    (b.markCell r c s).2.cellAt i j = b.cellAt i j := by
  unfold Board.markCell
  split
  · simp only [Board.cellAt]
    by_cases hi : r.toNat = i
    · subst hi
      have hj : c.toNat ≠ j := fun h => hne ⟨rfl, h.symm⟩
      by_cases hlen : r.toNat < b.grid.length
      · rw [getD_set_self_of_lt _ _ _ _ hlen, getD_set_of_ne _ _ _ _ _ hj]
      · rw [List.set_eq_of_length_le (by omega)]
    · rw [getD_set_of_ne _ _ _ _ _ hi]
  · rfl

theorem wellFormed_markCell (b : Board) (r c : Int) (s : PlayerSym) (hwf : wellFormed b) :
    wellFormed (b.markCell r c s).2 := by
  unfold Board.markCell
  split
  · refine ⟨?_, ?_⟩
    · show (b.grid.set r.toNat ((b.grid.getD r.toNat []).set c.toNat (some s))).length = b.size
      rw [List.length_set]
      exact hwf.1
    · intro i hi
      show ((b.grid.set r.toNat ((b.grid.getD r.toNat []).set c.toNat (some s))).getD
        i []).length = b.size
      by_cases hr : r.toNat = i
      · subst hr
        by_cases hlen : r.toNat < b.grid.length
        · rw [getD_set_self_of_lt _ _ _ _ hlen, List.length_set]
          exact hwf.2 _ hi
        · rw [List.set_eq_of_length_le (by omega)]
          exact hwf.2 _ hi
      · rw [getD_set_of_ne _ _ _ _ _ hr]
        exact hwf.2 _ hi
  · exact hwf

theorem wellFormed_create (n : Nat) : wellFormed (Board.create n) := by
  refine ⟨by simp [Board.create], ?_⟩
  intro i hi
  show ((List.replicate n (List.replicate n (none : Cell))).getD i []).length = n
  rw [List.getD_eq_getElem _ _ (by simpa using hi), List.getElem_replicate]
  simp

/-- Marking a cell with symbol `s` can never create a full line for a
different symbol `t`: any winning line of the marked board avoiding the
marked cell was already a winning line before. -/
theorem winSpec_markCell_rev (b : Board) (r c : Int) (s t : PlayerSym) (hst : s ≠ t)
    (h : winSpec (b.markCell r c s).2 t) : winSpec b t := by
  have hsize := markCell_size b r c s
  have hpt : ∀ i j : Nat, (b.markCell r c s).2.cellAt i j = some t →
      b.cellAt i j = some t := by
    intro i j hij
    rcases markCell_cell_cases b r c s i j with h2 | h2
    · rw [← h2]
      exact hij
    · rw [h2] at hij
      exact absurd (Option.some_inj.1 hij) hst
  unfold winSpec at h ⊢
  rw [hsize] at h
  rcases h with ⟨i, hi, hrow⟩ | ⟨i, hi, hcol⟩ | hdiag | hanti
  · exact Or.inl ⟨i, hi, fun j hj => hpt i j (hrow j hj)⟩
  · exact Or.inr (Or.inl ⟨i, hi, fun j hj => hpt j i (hcol j hj)⟩)
  · exact Or.inr (Or.inr (Or.inl fun i hi => hpt i i (hdiag i hi)))
  · exact Or.inr (Or.inr (Or.inr fun i hi => hpt i _ (hanti i hi)))

/-! Lemmas about one iteration of the play loop. -/

theorem step_not_ongoing (players : List PlayerSym) (st : GameState) (mv : Int × Int)
    (h : st.outcome ≠ Outcome.ongoing) : step players st mv = st := by
  rcases st with ⟨b, i, o⟩
  cases o
  · exact absurd rfl h
  · rfl
  · rfl

theorem step_invalid (players : List PlayerSym) (st : GameState) (mv : Int × Int)
    (h : isValidMove st.board mv.1 mv.2 = false) : step players st mv = st := by
  rcases st with ⟨b, i, o⟩
  cases o
  · simp only [step]
    rw [if_neg]
    simp_all
  · rfl
  · rfl

theorem step_valid_win (players : List PlayerSym) (b : Board) (i : Nat) (mv : Int × Int)
    (hv : isValidMove b mv.1 mv.2 = true)
    (hw : checkWin (b.markCell mv.1 mv.2 (players.getD i PlayerSym.X)).2
      (players.getD i PlayerSym.X) = true) :
    step players ⟨b, i, Outcome.ongoing⟩ mv =
      ⟨(b.markCell mv.1 mv.2 (players.getD i PlayerSym.X)).2, i,
        Outcome.win (players.getD i PlayerSym.X)⟩ := by
  simp only [step]
  rw [if_pos hv, if_pos hw]

theorem step_valid_draw (players : List PlayerSym) (b : Board) (i : Nat) (mv : Int × Int)
    (hv : isValidMove b mv.1 mv.2 = true)
    (hw : checkWin (b.markCell mv.1 mv.2 (players.getD i PlayerSym.X)).2
      (players.getD i PlayerSym.X) = false)
    (hd : checkDraw (b.markCell mv.1 mv.2 (players.getD i PlayerSym.X)).2 = true) :
    step players ⟨b, i, Outcome.ongoing⟩ mv =
      ⟨(b.markCell mv.1 mv.2 (players.getD i PlayerSym.X)).2, i, Outcome.draw⟩ := by
  simp only [step]
  rw [if_pos hv, if_neg (by rw [hw]; simp), if_pos hd]

theorem step_valid_cont (players : List PlayerSym) (b : Board) (i : Nat) (mv : Int × Int)
    (hv : isValidMove b mv.1 mv.2 = true)
    (hw : checkWin (b.markCell mv.1 mv.2 (players.getD i PlayerSym.X)).2
      (players.getD i PlayerSym.X) = false)
    (hd : checkDraw (b.markCell mv.1 mv.2 (players.getD i PlayerSym.X)).2 = false) :
    step players ⟨b, i, Outcome.ongoing⟩ mv =
      ⟨(b.markCell mv.1 mv.2 (players.getD i PlayerSym.X)).2, (i + 1) % players.length,
        Outcome.ongoing⟩ := by
  simp only [step]
  rw [if_pos hv, if_neg (by rw [hw]; simp), if_neg (by rw [hd]; simp)]

/-- Invariant of the play loop: an ongoing game has no full board and no
winning line; a won game has a winning line for the winner; a drawn game
has a full board and no winning line. -/
def Inv (st : GameState) : Prop :=
  (st.outcome = Outcome.ongoing →
      ¬ fullBoard st.board ∧ ¬ winSpec st.board PlayerSym.X ∧
        ¬ winSpec st.board PlayerSym.O) ∧
  (∀ p, st.outcome = Outcome.win p → winSpec st.board p) ∧
  (st.outcome = Outcome.draw →
      fullBoard st.board ∧ ¬ winSpec st.board PlayerSym.X ∧
        ¬ winSpec st.board PlayerSym.O)

theorem inv_step (players : List PlayerSym) (st : GameState) (mv : Int × Int)
    (h : Inv st) : Inv (step players st mv) := by
  rcases st with ⟨b, i, o⟩
  cases o
  case win p => simpa [step] using h
  case draw => simpa [step] using h
  case ongoing =>
    by_cases hv : isValidMove b mv.1 mv.2 = true
    case neg =>
      rw [step_invalid players ⟨b, i, Outcome.ongoing⟩ mv (by simpa using hv)]
      exact h
    case pos =>
      obtain ⟨hong, -, -⟩ := h
      obtain ⟨hnf, hnX, hnO⟩ := hong rfl
      have hnb : ∀ t, ¬ winSpec b t := fun t => by cases t <;> assumption
      by_cases hw : checkWin (b.markCell mv.1 mv.2 (players.getD i PlayerSym.X)).2
          (players.getD i PlayerSym.X) = true
      · rw [step_valid_win players b i mv hv hw]
        refine ⟨fun h2 => Outcome.noConfusion h2, ?_, fun h2 => Outcome.noConfusion h2⟩
        intro p hp
        injection hp with hp2
        subst hp2
        exact (checkWin_iff _ _).1 hw
      · have hnw2 : ∀ t, ¬ winSpec (b.markCell mv.1 mv.2 (players.getD i PlayerSym.X)).2 t := by
          intro t hwin
          by_cases hct : players.getD i PlayerSym.X = t
          · subst hct
            exact hw ((checkWin_iff _ _).2 hwin)
          · exact hnb t (winSpec_markCell_rev b mv.1 mv.2 _ t hct hwin)
        by_cases hd : checkDraw (b.markCell mv.1 mv.2 (players.getD i PlayerSym.X)).2 = true
        · rw [step_valid_draw players b i mv hv (by simpa using hw) hd]
          exact ⟨fun h2 => Outcome.noConfusion h2, fun p hp => Outcome.noConfusion hp,
            fun _ => ⟨(checkDraw_iff _).1 hd, hnw2 _, hnw2 _⟩⟩
        · rw [step_valid_cont players b i mv hv (by simpa using hw) (by simpa using hd)]
          refine ⟨fun _ => ⟨?_, hnw2 _, hnw2 _⟩, fun p hp => Outcome.noConfusion hp,
            fun h2 => Outcome.noConfusion h2⟩
          intro hfull
          exact hd ((checkDraw_iff _).2 hfull)

theorem inv_runFrom (players : List PlayerSym) (moves : List (Int × Int)) (st : GameState)
    (h : Inv st) : Inv (runFrom players st moves) := by
  induction moves generalizing st with
  | nil => simpa [runFrom] using h
  | cons mv rest ih =>
      have h2 : runFrom players st (mv :: rest) = runFrom players (step players st mv) rest := rfl
      rw [h2]
      exact ih _ (inv_step players st mv h)

theorem not_winSpec_create (n : Nat) (hn : 1 ≤ n) (s : PlayerSym) :
    ¬ winSpec (Board.create n) s := by
  intro h
  have hc : ∀ i j : Nat, ¬ ((Board.create n).cellAt i j = some s) := by
    intro i j hij
    rw [cellAt_create] at hij
    exact Option.noConfusion hij
  have hsz : (Board.create n).size = n := rfl
  unfold winSpec at h
  rw [hsz] at h
  rcases h with ⟨i, hi, hrow⟩ | ⟨i, hi, hcol⟩ | hdiag | hanti
  · exact hc i 0 (hrow 0 hn)
  · exact hc 0 i (hcol 0 hn)
  · exact hc 0 0 (hdiag 0 hn)
  · exact hc 0 _ (hanti 0 hn)

theorem inv_init (n : Nat) (hn : 1 ≤ n) : Inv (initState n) := by
  refine ⟨fun _ => ⟨?_, not_winSpec_create n hn _, not_winSpec_create n hn _⟩,
    fun p hp => Outcome.noConfusion hp, fun h2 => Outcome.noConfusion h2⟩
  intro hfull
  exact hfull 0 hn 0 hn (cellAt_create n 0 0)

theorem step_valid_board (players : List PlayerSym) (b : Board) (i : Nat) (mv : Int × Int)
    (hv : isValidMove b mv.1 mv.2 = true) :
    (step players ⟨b, i, Outcome.ongoing⟩ mv).board =
      (b.markCell mv.1 mv.2 (players.getD i PlayerSym.X)).2 := by
  by_cases hw : checkWin (b.markCell mv.1 mv.2 (players.getD i PlayerSym.X)).2
      (players.getD i PlayerSym.X) = true
  · rw [step_valid_win players b i mv hv hw]
  · by_cases hd : checkDraw (b.markCell mv.1 mv.2 (players.getD i PlayerSym.X)).2 = true
    · rw [step_valid_draw players b i mv hv (by simpa using hw) hd]
    · rw [step_valid_cont players b i mv hv (by simpa using hw) (by simpa using hd)]

theorem step_board_cases (players : List PlayerSym) (st : GameState) (mv : Int × Int) :
    (step players st mv).board = st.board ∨
      (step players st mv).board =
        (st.board.markCell mv.1 mv.2 (players.getD st.idx PlayerSym.X)).2 := by
  rcases st with ⟨b, i, o⟩
  cases o with
  | ongoing =>
      by_cases hv : isValidMove b mv.1 mv.2 = true
      · exact Or.inr (step_valid_board players b i mv hv)
      · rw [step_invalid _ _ _ (by simpa using hv)]
        exact Or.inl rfl
  | win p => exact Or.inl rfl
  | draw => exact Or.inl rfl

theorem wellFormed_step (players : List PlayerSym) (st : GameState) (mv : Int × Int)
    (h : wellFormed st.board) : wellFormed (step players st mv).board := by
  rcases step_board_cases players st mv with h2 | h2 <;> rw [h2]
  · exact h
  · exact wellFormed_markCell _ _ _ _ h

theorem wellFormed_runFrom (players : List PlayerSym) (moves : List (Int × Int))
    (st : GameState) (h : wellFormed st.board) :
    wellFormed (runFrom players st moves).board := by
  induction moves generalizing st with
  | nil => simpa [runFrom] using h
  | cons mv rest ih => exact ih _ (wellFormed_step players st mv h)

theorem playTrace_not_ongoing (players : List PlayerSym) (moves : List (Int × Int))
    (st : GameState) (h : st.outcome ≠ Outcome.ongoing) :
    playTrace players st moves = [] := by
  induction moves generalizing st with
  | nil => rfl
  | cons mv rest ih =>
      rcases st with ⟨b, i, o⟩
      cases o with
      | ongoing => exact absurd rfl h
      | win p =>
          show playTrace players (step players ⟨b, i, Outcome.win p⟩ mv) rest = []
          rw [step_not_ongoing _ _ _ h]
          exact ih _ h
      | draw =>
          show playTrace players (step players ⟨b, i, Outcome.draw⟩ mv) rest = []
          rw [step_not_ongoing _ _ _ h]
          exact ih _ h

/-! Counting non-empty cells. -/

theorem countNonEmpty_markCell (b : Board) (r c : Int) (s : PlayerSym)
    (hwf : wellFormed b) (hacc : b.isCellEmpty r c = true) :
    countNonEmpty (b.markCell r c s).2 = countNonEmpty b + 1 := by
  obtain ⟨h0, h1, h2, h3, h4⟩ := (isCellEmpty_eq_true_iff b r c).1 hacc
  have hrt : r.toNat < b.size := by omega
  have hct : c.toNat < b.size := by omega
  have hmark := markCell_cellAt_marked b r c s hwf hacc
  have hsz := markCell_size b r c s
  have hmemr : r.toNat ∈ Finset.range b.size := Finset.mem_range.2 hrt
  have hmemc : c.toNat ∈ Finset.range b.size := Finset.mem_range.2 hct
  have hinner_ne : ∀ i, i ≠ r.toNat →
      (∑ j ∈ Finset.range b.size,
          if (b.markCell r c s).2.cellAt i j = none then 0 else 1) =
        (∑ j ∈ Finset.range b.size, if b.cellAt i j = none then 0 else 1) := by
    intro i hne
    refine Finset.sum_congr rfl fun j _ => ?_
    rw [markCell_cellAt_other b r c s i j (fun hc => hne hc.1)]
  have hinner_eq :
      (∑ j ∈ Finset.range b.size,
          if (b.markCell r c s).2.cellAt r.toNat j = none then 0 else 1) =
        (∑ j ∈ Finset.range b.size, if b.cellAt r.toNat j = none then 0 else 1) + 1 := by
    have hL := (Finset.sum_erase_add (Finset.range b.size)
      (fun j => if (b.markCell r c s).2.cellAt r.toNat j = none then 0 else 1) hmemc).symm
    have hR := (Finset.sum_erase_add (Finset.range b.size)
      (fun j => if b.cellAt r.toNat j = none then 0 else 1) hmemc).symm
    rw [hL, hR]
    have hE : (∑ j ∈ (Finset.range b.size).erase c.toNat,
        if (b.markCell r c s).2.cellAt r.toNat j = none then 0 else 1) =
        ∑ j ∈ (Finset.range b.size).erase c.toNat,
          if b.cellAt r.toNat j = none then 0 else 1 := by
      refine Finset.sum_congr rfl fun j hj => ?_
      have hjne : j ≠ c.toNat := (Finset.mem_erase.1 hj).1
      rw [markCell_cellAt_other b r c s r.toNat j (fun hc => hjne hc.2)]
    rw [hE, hmark, h4]
    simp
  unfold countNonEmpty
  rw [hsz]
  have hLo := (Finset.sum_erase_add (Finset.range b.size)
    (fun i => ∑ j ∈ Finset.range b.size,
      if (b.markCell r c s).2.cellAt i j = none then 0 else 1) hmemr).symm
  have hRo := (Finset.sum_erase_add (Finset.range b.size)
    (fun i => ∑ j ∈ Finset.range b.size, if b.cellAt i j = none then 0 else 1) hmemr).symm
  rw [hLo, hRo]
  have hEo : (∑ i ∈ (Finset.range b.size).erase r.toNat,
      ∑ j ∈ Finset.range b.size,
        if (b.markCell r c s).2.cellAt i j = none then 0 else 1) =
      ∑ i ∈ (Finset.range b.size).erase r.toNat,
        ∑ j ∈ Finset.range b.size, if b.cellAt i j = none then 0 else 1 := by
    refine Finset.sum_congr rfl fun i hi => ?_
    exact hinner_ne i (Finset.mem_erase.1 hi).1
  rw [hEo, hinner_eq]
  omega

theorem countNonEmpty_create (n : Nat) : countNonEmpty (Board.create n) = 0 := by
  unfold countNonEmpty
  refine Finset.sum_eq_zero fun i _ => Finset.sum_eq_zero fun j _ => ?_
  rw [cellAt_create]
  simp

theorem countNonEmpty_runFrom (players : List PlayerSym) (moves : List (Int × Int))
    (st : GameState) (hwf : wellFormed st.board) :
    countNonEmpty (runFrom players st moves).board =
      countNonEmpty st.board + (playTrace players st moves).length := by
  induction moves generalizing st with
  | nil => simp [runFrom, playTrace]
  | cons mv rest ih =>
      have hrun : runFrom players st (mv :: rest) =
          runFrom players (step players st mv) rest := rfl
      rcases st with ⟨b, i, o⟩
      cases o with
      | ongoing =>
          by_cases hv : isValidMove b mv.1 mv.2 = true
          · have htr : playTrace players ⟨b, i, Outcome.ongoing⟩ (mv :: rest) =
                players.getD i PlayerSym.X ::
                  playTrace players (step players ⟨b, i, Outcome.ongoing⟩ mv) rest := by
              simp only [playTrace]
              rw [if_pos hv]
            rw [hrun, htr, ih _ (wellFormed_step players _ mv hwf), List.length_cons]
            have hb : (step players ⟨b, i, Outcome.ongoing⟩ mv).board =
                (b.markCell mv.1 mv.2 (players.getD i PlayerSym.X)).2 :=
              step_valid_board players b i mv hv
            rw [hb, countNonEmpty_markCell b mv.1 mv.2 _ hwf (by simpa [isValidMove] using hv)]
            dsimp only
            omega
          · have htr : playTrace players ⟨b, i, Outcome.ongoing⟩ (mv :: rest) =
                playTrace players (step players ⟨b, i, Outcome.ongoing⟩ mv) rest := by
              simp only [playTrace]
              rw [if_neg (by simp [hv])]
            rw [hrun, htr, step_invalid _ _ _ (by simpa using hv)]
            exact ih _ hwf
      | win p =>
          have htr : playTrace players ⟨b, i, Outcome.win p⟩ (mv :: rest) =
              playTrace players (step players ⟨b, i, Outcome.win p⟩ mv) rest := rfl
          rw [hrun, htr, step_not_ongoing _ _ _ (by simp)]
          exact ih _ hwf
      | draw =>
          have htr : playTrace players ⟨b, i, Outcome.draw⟩ (mv :: rest) =
              playTrace players (step players ⟨b, i, Outcome.draw⟩ mv) rest := rfl
          rw [hrun, htr, step_not_ongoing _ _ _ (by simp)]
          exact ih _ hwf

/-! Alternation of the movers along the accepted-move trace. -/

theorem playTrace_getD (moves : List (Int × Int)) :
    ∀ st : GameState, st.idx < 2 → ∀ k : Nat,
      k < (playTrace mainPlayers st moves).length →
        (playTrace mainPlayers st moves).getD k PlayerSym.X =
          mainPlayers.getD ((st.idx + k) % 2) PlayerSym.X := by
  induction moves with
  | nil =>
      intro st _ k hk
      simp [playTrace] at hk
  | cons mv rest ih =>
      intro st hidx k hk
      rcases st with ⟨b, i, o⟩
      dsimp only at hidx
      cases o with
      | ongoing =>
          by_cases hv : isValidMove b mv.1 mv.2 = true
          · have htr : playTrace mainPlayers ⟨b, i, Outcome.ongoing⟩ (mv :: rest) =
                mainPlayers.getD i PlayerSym.X ::
                  playTrace mainPlayers (step mainPlayers ⟨b, i, Outcome.ongoing⟩ mv) rest := by
              simp only [playTrace]
              rw [if_pos hv]
            rw [htr] at hk ⊢
            cases k with
            | zero =>
                simp only [List.getD_cons_zero]
                have h2 : (i + 0) % 2 = i := by omega
                rw [h2]
            | succ k =>
                simp only [List.getD_cons_succ]
                by_cases hw : checkWin
                    (b.markCell mv.1 mv.2 (mainPlayers.getD i PlayerSym.X)).2
                    (mainPlayers.getD i PlayerSym.X) = true
                · rw [step_valid_win mainPlayers b i mv hv hw] at hk ⊢
                  rw [playTrace_not_ongoing _ _ _ (by simp)] at hk
                  simp at hk
                · by_cases hd : checkDraw
                      (b.markCell mv.1 mv.2 (mainPlayers.getD i PlayerSym.X)).2 = true
                  · rw [step_valid_draw mainPlayers b i mv hv (by simpa using hw) hd] at hk ⊢
                    rw [playTrace_not_ongoing _ _ _ (by simp)] at hk
                    simp at hk
                  · rw [step_valid_cont mainPlayers b i mv hv (by simpa using hw)
                      (by simpa using hd)] at hk ⊢
                    have hlen : mainPlayers.length = 2 := rfl
                    rw [hlen] at hk ⊢
                    have h2 := ih ⟨(b.markCell mv.1 mv.2
                        (mainPlayers.getD i PlayerSym.X)).2, (i + 1) % 2, Outcome.ongoing⟩
                      (by dsimp only; omega) k (by simpa using hk)
                    dsimp only at h2
                    rw [h2]
                    congr 1
                    omega
          · have htr : playTrace mainPlayers ⟨b, i, Outcome.ongoing⟩ (mv :: rest) =
                playTrace mainPlayers (step mainPlayers ⟨b, i, Outcome.ongoing⟩ mv) rest := by
              simp only [playTrace]
              rw [if_neg (by simp [hv])]
            rw [htr] at hk ⊢
            rw [step_invalid _ _ _ (by simpa using hv)] at hk ⊢
            exact ih ⟨b, i, Outcome.ongoing⟩ hidx k hk
      | win p =>
          rw [playTrace_not_ongoing _ _ _ (by simp)] at hk
          simp at hk
      | draw =>
          rw [playTrace_not_ongoing _ _ _ (by simp)] at hk
          simp at hk

theorem runFrom_cons (players : List PlayerSym) (st : GameState) (mv : Int × Int)
    (rest : List (Int × Int)) :
    runFrom players st (mv :: rest) = runFrom players (step players st mv) rest := rfl

theorem runFrom_nil (players : List PlayerSym) (st : GameState) :
    runFrom players st [] = st := rfl

/-! Claim theorems. -/

/-- C1: for every n x n board with n in [3,15] and every player symbol `s`,
`StandardRule::checkWin(s)` returns true if and only if some full row, some
full column, the main diagonal, or the anti-diagonal is occupied entirely
by `s`, with neither false positives nor false negatives. -/
theorem checkWin_correct_C1 (b : Board) (s : PlayerSym)
    (_h3 : 3 ≤ b.size) (_h15 : b.size ≤ 15) :
    checkWin b s = true ↔ winSpec b s :=
  checkWin_iff b s

/-- Witness for C1 at a concrete 3 x 3 board whose top row is all X. -/
theorem checkWin_correct_C1_witness :
    (3 ≤ exampleTopRow.size ∧ exampleTopRow.size ≤ 15) ∧
      (checkWin exampleTopRow PlayerSym.X = true ↔ winSpec exampleTopRow PlayerSym.X) :=
  ⟨⟨by decide, by decide⟩,
    checkWin_correct_C1 exampleTopRow PlayerSym.X (by decide) (by decide)⟩

/-- C2: for every game run from the initial state (board size at least 1)
over any move sequence, the game reports a draw if and only if every cell
of the grid is non-Empty and no row, column, or diagonal is fully owned by
one player. -/
theorem draw_iff_full_no_line_C2 (n : Nat) (moves : List (Int × Int)) (hn : 1 ≤ n) :
    (run n moves).outcome = Outcome.draw ↔
      (fullBoard (run n moves).board ∧
        ¬ winSpec (run n moves).board PlayerSym.X ∧
        ¬ winSpec (run n moves).board PlayerSym.O) := by
  obtain ⟨hong, hwin, hdraw⟩ :=
    inv_runFrom mainPlayers moves (initState n) (inv_init n hn)
  cases ho : (run n moves).outcome with
  | ongoing =>
      exact iff_of_false (fun h => Outcome.noConfusion h) (fun hc => (hong ho).1 hc.1)
  | win p =>
      refine iff_of_false (fun h => Outcome.noConfusion h) (fun hc => ?_)
      have hwp := hwin p ho
      cases p
      · exact hc.2.1 hwp
      · exact hc.2.2 hwp
  | draw => exact iff_of_true rfl (hdraw ho)

/-- Witness for C2 at the empty move list on a 3 x 3 board. -/
theorem draw_iff_full_no_line_C2_witness :
    (run 3 []).outcome = Outcome.draw ↔
      (fullBoard (run 3 []).board ∧
        ¬ winSpec (run 3 []).board PlayerSym.X ∧
        ¬ winSpec (run 3 []).board PlayerSym.O) :=
  draw_iff_full_no_line_C2 3 [] (by decide)

/-- C3: on every accepted move whose resulting board both makes
`checkWin` true for the mover and makes `checkDraw` true (the move filled
the last empty cell), the play loop reports a win for the mover and not a
draw: the win check precedes the draw check. -/
theorem win_before_draw_C3 (players : List PlayerSym) (st : GameState) (mv : Int × Int)
    (hong : st.outcome = Outcome.ongoing)
    (hv : isValidMove st.board mv.1 mv.2 = true)
    (hw : checkWin (st.board.markCell mv.1 mv.2 (players.getD st.idx PlayerSym.X)).2
        (players.getD st.idx PlayerSym.X) = true)
    (hd : checkDraw (st.board.markCell mv.1 mv.2 (players.getD st.idx PlayerSym.X)).2 = true) :
    (step players st mv).outcome = Outcome.win (players.getD st.idx PlayerSym.X) ∧
      (step players st mv).outcome ≠ Outcome.draw := by
  rcases st with ⟨b, i, o⟩
  cases o with
  | ongoing =>
      rw [step_valid_win players b i mv hv hw]
      exact ⟨rfl, fun h => Outcome.noConfusion h⟩
  | win p => exact absurd hong (by simp)
  | draw => exact absurd hong (by simp)

/-- Witness for C3: X plays `(0,2)` on a board with eight occupied cells,
completing the top row and filling the board; the outcome is a win, not a
draw. -/
theorem win_before_draw_C3_witness :
    (step mainPlayers ⟨exampleAlmostFull, 0, Outcome.ongoing⟩
        ((0 : Int), (2 : Int))).outcome =
        Outcome.win (mainPlayers.getD 0 PlayerSym.X) ∧
      (step mainPlayers ⟨exampleAlmostFull, 0, Outcome.ongoing⟩
        ((0 : Int), (2 : Int))).outcome ≠ Outcome.draw :=
  win_before_draw_C3 mainPlayers ⟨exampleAlmostFull, 0, Outcome.ongoing⟩ (0, 2)
    rfl (by decide) (by decide) (by decide)

/-- C4: move validation accepts `(row, col)` if and only if both indices
lie in `[0, n)` and the target cell is Empty; being a pure function of the
board it has no side effects. -/
theorem isValidMove_iff_C4 (b : Board) (r c : Int) :
    isValidMove b r c = true ↔
      0 ≤ r ∧ r < (b.size : Int) ∧ 0 ≤ c ∧ c < (b.size : Int) ∧
        b.cellAt r.toNat c.toNat = none :=
  isCellEmpty_eq_true_iff b r c

/-- C5: a move onto an occupied cell or with an index outside `[0, n)` is
always rejected by `isValidMove` and leaves the whole game state unchanged
(no cell written, current player not switched, game not ended). -/
theorem rejected_move_unchanged_C5 (players : List PlayerSym) (st : GameState) (r c : Int)
    (h : r < 0 ∨ (st.board.size : Int) ≤ r ∨ c < 0 ∨ (st.board.size : Int) ≤ c ∨
      st.board.cellAt r.toNat c.toNat ≠ none) :
    isValidMove st.board r c = false ∧ step players st (r, c) = st := by
  have hvf : isValidMove st.board r c = false := by
    cases hE : isValidMove st.board r c
    · rfl
    · obtain ⟨h0, h1, h2, h3, h4⟩ := (isCellEmpty_eq_true_iff st.board r c).1 hE
      rcases h with h | h | h | h | h
      · omega
      · omega
      · omega
      · omega
      · exact absurd h4 h
  refine ⟨hvf, ?_⟩
  by_cases ho : st.outcome = Outcome.ongoing
  · exact step_invalid players st (r, c) hvf
  · exact step_not_ongoing players st (r, c) ho

/-- Witness for C5: the spec example, move `(5,5)` on a fresh 3 x 3 board. -/
theorem rejected_move_unchanged_C5_witness :
    isValidMove (initState 3).board 5 5 = false ∧
      step mainPlayers (initState 3) ((5 : Int), (5 : Int)) = initState 3 :=
  rejected_move_unchanged_C5 mainPlayers (initState 3) 5 5 (by decide)

/-- C6: with players X then O (X registered first), the k-th accepted move
(0-indexed) of any run is made by X when k is even and by O when k is odd —
so X moves first and accepted moves alternate strictly — and a rejected
move never changes `currentPlayerIndex`. -/
theorem turns_alternate_C6 (n : Nat) (moves : List (Int × Int)) (st : GameState)
    (mv : Int × Int) (k : Nat)
    (hk : k < (playTrace mainPlayers (initState n) moves).length)
    (hv : isValidMove st.board mv.1 mv.2 = false) :
    (playTrace mainPlayers (initState n) moves).getD k PlayerSym.X =
        (if k % 2 = 0 then PlayerSym.X else PlayerSym.O) ∧
      (step mainPlayers st mv).idx = st.idx := by
  constructor
  · have h := playTrace_getD moves (initState n) (by dsimp only [initState]; omega) k hk
    rw [h]
    dsimp only [initState]
    rcases Nat.mod_two_eq_zero_or_one k with h2 | h2
    · have h3 : (0 + k) % 2 = 0 := by omega
      rw [h3, if_pos h2]
      rfl
    · have h3 : (0 + k) % 2 = 1 := by omega
      rw [h3, if_neg (by omega)]
      rfl
  · rw [step_invalid mainPlayers st mv hv]

/-- Witness for C6: a run whose second input repeats an occupied cell (and
is rejected); the second accepted move is still made by O, and the rejected
move `(5,5)` from the initial state keeps the player index. -/
theorem turns_alternate_C6_witness :
    ((playTrace mainPlayers (initState 3)
        [((0 : Int), (0 : Int)), (0, 0), (1, 1)]).getD 1 PlayerSym.X =
        (if 1 % 2 = 0 then PlayerSym.X else PlayerSym.O)) ∧
      (step mainPlayers (initState 3) ((5 : Int), (5 : Int))).idx = (initState 3).idx :=
  turns_alternate_C6 3 [((0 : Int), (0 : Int)), (0, 0), (1, 1)] (initState 3)
    ((5 : Int), (5 : Int)) 1 (by decide) (by decide)

/-- C7: the number of accepted moves (the spec-modelled `movesCount`)
equals the number of non-Empty cells of the final grid, and an accepted
move never reverts a non-Empty cell to Empty (a cell Empty after a further
step was already Empty before it). -/
theorem movesCount_eq_nonEmpty_C7 (n : Nat) (moves : List (Int × Int)) (mv : Int × Int)
    (i j : Nat)
    (hnone : (step mainPlayers (run n moves) mv).board.cellAt i j = none) :
    movesCount n moves = countNonEmpty (run n moves).board ∧
      (run n moves).board.cellAt i j = none := by
  constructor
  · have h := countNonEmpty_runFrom mainPlayers moves (initState n) (wellFormed_create n)
    have h0 : countNonEmpty (initState n).board = 0 := countNonEmpty_create n
    rw [h0] at h
    unfold movesCount run
    omega
  · rcases step_board_cases mainPlayers (run n moves) mv with h | h
    · rw [h] at hnone
      exact hnone
    · rw [h] at hnone
      rcases markCell_cell_cases (run n moves).board mv.1 mv.2
          (mainPlayers.getD (run n moves).idx PlayerSym.X) i j with h2 | h2
      · rw [h2] at hnone
        exact hnone
      · rw [h2] at hnone
        exact Option.noConfusion hnone

/-- Witness for C7: after one accepted move on a 3 x 3 board the counter
and the non-Empty count are both 1, and cell `(2,2)` (Empty after a further
step at `(1,1)`) was already Empty. -/
theorem movesCount_eq_nonEmpty_C7_witness :
    movesCount 3 [((0 : Int), (0 : Int))] =
        countNonEmpty (run 3 [((0 : Int), (0 : Int))]).board ∧
      (run 3 [((0 : Int), (0 : Int))]).board.cellAt 2 2 = none :=
  movesCount_eq_nonEmpty_C7 3 [((0 : Int), (0 : Int))] ((1 : Int), (1 : Int)) 2 2 (by decide)

/-- C8: on a 3 x 3 board the move sequence (0,0) by X, (1,1) by O, (0,1)
by X, (2,2) by O, (0,2) by X ends the game with a win for X, the winning
line being the top row cells (0,0), (0,1), (0,2). -/
theorem example_run_win_C8 :
    (run 3 [((0 : Int), (0 : Int)), (1, 1), (0, 1), (2, 2), (0, 2)]).outcome =
        Outcome.win PlayerSym.X ∧
      (run 3 [((0 : Int), (0 : Int)), (1, 1), (0, 1), (2, 2), (0, 2)]).board.cellAt 0 0 =
        some PlayerSym.X ∧
      (run 3 [((0 : Int), (0 : Int)), (1, 1), (0, 1), (2, 2), (0, 2)]).board.cellAt 0 1 =
        some PlayerSym.X ∧
      (run 3 [((0 : Int), (0 : Int)), (1, 1), (0, 1), (2, 2), (0, 2)]).board.cellAt 0 2 =
        some PlayerSym.X := by
  have h1 : step mainPlayers (initState 3) ((0 : Int), (0 : Int)) =
      ⟨⟨3, [[some PlayerSym.X, none, none], [none, none, none], [none, none, none]]⟩, 1,
        Outcome.ongoing⟩ := by decide
  have h2 : step mainPlayers
      ⟨⟨3, [[some PlayerSym.X, none, none], [none, none, none], [none, none, none]]⟩, 1,
        Outcome.ongoing⟩ ((1 : Int), (1 : Int)) =
      ⟨⟨3, [[some PlayerSym.X, none, none], [none, some PlayerSym.O, none],
        [none, none, none]]⟩, 0, Outcome.ongoing⟩ := by decide
  have h3 : step mainPlayers
      ⟨⟨3, [[some PlayerSym.X, none, none], [none, some PlayerSym.O, none],
        [none, none, none]]⟩, 0, Outcome.ongoing⟩ ((0 : Int), (1 : Int)) =
      ⟨⟨3, [[some PlayerSym.X, some PlayerSym.X, none], [none, some PlayerSym.O, none],
        [none, none, none]]⟩, 1, Outcome.ongoing⟩ := by decide
  have h4 : step mainPlayers
      ⟨⟨3, [[some PlayerSym.X, some PlayerSym.X, none], [none, some PlayerSym.O, none],
        [none, none, none]]⟩, 1, Outcome.ongoing⟩ ((2 : Int), (2 : Int)) =
      ⟨⟨3, [[some PlayerSym.X, some PlayerSym.X, none], [none, some PlayerSym.O, none],
        [none, none, some PlayerSym.O]]⟩, 0, Outcome.ongoing⟩ := by decide
  have h5 : step mainPlayers
      ⟨⟨3, [[some PlayerSym.X, some PlayerSym.X, none], [none, some PlayerSym.O, none],
        [none, none, some PlayerSym.O]]⟩, 0, Outcome.ongoing⟩ ((0 : Int), (2 : Int)) =
      ⟨⟨3, [[some PlayerSym.X, some PlayerSym.X, some PlayerSym.X],
        [none, some PlayerSym.O, none], [none, none, some PlayerSym.O]]⟩, 0,
        Outcome.win PlayerSym.X⟩ := by decide
  have hrun : run 3 [((0 : Int), (0 : Int)), (1, 1), (0, 1), (2, 2), (0, 2)] =
      ⟨⟨3, [[some PlayerSym.X, some PlayerSym.X, some PlayerSym.X],
        [none, some PlayerSym.O, none], [none, none, some PlayerSym.O]]⟩, 0,
        Outcome.win PlayerSym.X⟩ := by
    show runFrom mainPlayers (initState 3)
      [((0 : Int), (0 : Int)), (1, 1), (0, 1), (2, 2), (0, 2)] = _
    rw [runFrom_cons, h1, runFrom_cons, h2, runFrom_cons, h3, runFrom_cons, h4,
      runFrom_cons, h5, runFrom_nil]
  rw [hrun]
  exact ⟨rfl, by decide, by decide, by decide⟩

/-- C9: `checkDraw` in isolation returns true iff every cell of the grid
is non-Empty, irrespective of winning lines: on a concrete full board that
contains a winning line for X, `checkDraw` still returns true (only the
play loop's win-before-draw ordering keeps such a state from being
reported as a draw). -/
theorem checkDraw_full_only_C9 :
    (∀ b : Board, checkDraw b = true ↔ fullBoard b) ∧
      checkDraw exampleFullWin = true ∧ checkWin exampleFullWin PlayerSym.X = true :=
  ⟨checkDraw_iff, by decide, by decide⟩

/-- C10: for every pair of integer indices with either coordinate outside
`[0, n)`, `Board::getCell` returns the `nullptr` sentinel (`none`) and
`Board::isCellEmpty` returns false, so the guarded accessors never index
outside the grid for any integer inputs. -/
theorem bounds_guard_C10 (b : Board) (r c : Int)
    (h : r < 0 ∨ (b.size : Int) ≤ r ∨ c < 0 ∨ (b.size : Int) ≤ c) :
    b.getCell r c = none ∧ b.isCellEmpty r c = false := by
  have hcond : (decide (r < 0) || decide ((b.size : Int) ≤ r) || decide (c < 0) ||
      decide ((b.size : Int) ≤ c)) = true := by
    simp only [Bool.or_eq_true, decide_eq_true_eq]
    tauto
  constructor
  · unfold Board.getCell
    rw [if_pos hcond]
  · unfold Board.isCellEmpty
    rw [if_pos hcond]

/-- Witness for C10: the out-of-bounds probe `(5,5)` on a 3 x 3 board. -/
theorem bounds_guard_C10_witness :
    (Board.create 3).getCell 5 5 = none ∧ (Board.create 3).isCellEmpty 5 5 = false :=
  bounds_guard_C10 (Board.create 3) 5 5 (by decide)

end TTT
